import Mathlib

/-!
The incremental-search list controller of `m` (src/main.c)

A shallow embedding of the launcher's core: the matcher `matches_search`, the
filter `filter_apps`, the scroll adjustment at the top of the render loop and
the key handling of `main`.

Conventions of the embedding.

* A C string is the list of its bytes before the terminating NUL (`List Nat`).
* `int` variables that are decremented (`highlight`, `offset`, `choice`, the key
  code) are `Int`; counters that only count up from 0 are `Nat`. All values the
  program computes stay below `MAX_APPS + 5`, far from the limits of `int`.
* `app_lower` in `matches_search` and `filtered_indices` in `main` are declared
  without an initialiser. What such storage holds before the program writes to
  it is a parameter of the model (`stale`, `mem0`), never a fixed value.
-/

namespace M

/-! ## Constants -/

/-- `#define MAX_APPS 512`. -/
def MAX_APPS : Nat := 512

/-- `#define MAX_SEARCH 64`. -/
def MAX_SEARCH : Nat := 64

/-- `KEY_DOWN` of ncurses' curses.h (octal 0402). -/
def KEY_DOWN : Int := 258

/-- `KEY_UP` of ncurses' curses.h (octal 0403). -/
def KEY_UP : Int := 259

/-- `KEY_BACKSPACE` of ncurses' curses.h (octal 0407). -/
def KEY_BACKSPACE : Int := 263

/-- `KEY_NPAGE` of ncurses' curses.h (octal 0522). -/
def KEY_NPAGE : Int := 338

/-- `KEY_PPAGE` of ncurses' curses.h (octal 0523). -/
def KEY_PPAGE : Int := 339

/-! ## libc functions used by the core -/

/-- `tolower` of <ctype.h> in the "C" locale (the program never calls
`setlocale`): the letters 'A'..'Z' go to 'a'..'z', every other value is
returned as it is. -/
def tolower (c : Nat) : Nat :=
  if 65 ≤ c ∧ c ≤ 90 then c + 32 else c

/-- `isprint` of <ctype.h> in the "C" locale: the codes 0x20..0x7E. Codes that
are no `unsigned char` (the `KEY_*` codes, `ERR`) are outside the characters
and count as not printable. -/
def isprint (c : Int) : Bool :=
  decide (32 ≤ c ∧ c ≤ 126)

/-- `strstr(haystack, needle)`: the tail of `haystack` that begins at the
first occurrence of `needle`, `none` for the NULL pointer. -/
def strstr : List Nat → List Nat → Option (List Nat)
  | [], needle => if needle.isPrefixOf [] then some [] else none
  | c :: rest, needle =>
      if needle.isPrefixOf (c :: rest) then some (c :: rest) else strstr rest needle

/-! ## Data model -/

/-- `typedef struct { char *display_name; char *file_name; int is_flatpak; } App;` -/
structure App where
  display_name : List Nat
  file_name : List Nat
  is_flatpak : Bool
deriving DecidableEq, Repr

/-! ## matches_search -/

/-- The two loops of `matches_search`,
`for (int i = 0; src[i] && i < limit; i++) { dst[i] = tolower(src[i]); dst[i + 1] = '\0'; }`,
seen on the C string that `dst` holds: pass `i` overwrites position `i` and
puts the terminator right behind it. The arguments are `i`, what is left of
`src` from position `i` on, and the string in `dst`. With no pass at all `dst`
keeps what it held. -/
def lower_loop (limit : Nat) : Nat → List Nat → List Nat → List Nat
  | _, [], dst => dst
  | i, c :: rest, dst =>
      if i < limit then lower_loop limit (i + 1) rest (dst.take i ++ [tolower c]) else dst

/-- `int matches_search(const char *app_name, const char *search)`.
`stale` is the string found in the uninitialised `app_lower` on entry; it is
read only when `app_name` is empty. `search_lower` is written by the first pass
of its loop, `search` being non-empty there, so its first content plays no
part (see `lower_loop_cons_indep`). -/
def matches_search (stale : List Nat) (app_name search : List Nat) : Bool :=
  if search.length = 0 then true
  else
    let app_lower := lower_loop 255 0 app_name stale
    let search_lower := lower_loop (MAX_SEARCH - 1) 0 search []
    (strstr app_lower search_lower).isSome

/-! ## filter_apps -/

/-- The loop of `filter_apps` from index `i` on: the arguments are the entries
`apps[i..total_apps)`, `i`, the array `filtered_indices` and `count`.
`stale j` is what call number `j` of `matches_search` finds in its buffer. -/
def filter_loop (stale : Nat → List Nat) (search : List Nat) :
    List App → Nat → (Nat → Nat) → Nat → (Nat → Nat) × Nat
  | [], _, filtered_indices, count => (filtered_indices, count)
  | a :: rest, i, filtered_indices, count =>
      if matches_search (stale i) a.display_name search then
        filter_loop stale search rest (i + 1) (Function.update filtered_indices count i) (count + 1)
      else
        filter_loop stale search rest (i + 1) filtered_indices count

/-- `int filter_apps(App *apps, int total_apps, int *filtered_indices, const char *search)`
with `total_apps = apps.length`: the array after the call and the returned count. -/
def filter_apps (stale : Nat → List Nat) (apps : List App) (filtered_indices : Nat → Nat)
    (search : List Nat) : (Nat → Nat) × Nat :=
  filter_loop stale search apps 0 filtered_indices 0

/-- The entries `a[0..count)` of an array, in order. -/
def entries (r : (Nat → Nat) × Nat) : List Nat :=
  (List.range r.2).map r.1

/-! ## The session of `main` -/

/-- The variables of `main` that the loop works on. `search` is the string in
the buffer `search`, whose length the code keeps in `search_len`; `running` is
false once a `break` has left the `while (1)` loop. -/
structure State where
  highlight : Int
  choice : Int
  offset : Int
  search : List Nat
  filtered_indices : Nat → Nat
  filtered_count : Nat
  running : Bool

/-- `search_len`: every edit of `search` writes the terminator at `search_len`. -/
def State.search_len (s : State) : Nat := s.search.length

/-- The valid part `filtered_indices[0..filtered_count)` of the array. -/
def State.filtered (s : State) : List Nat :=
  entries (s.filtered_indices, s.filtered_count)

/-- `for (int i = 0; i < app_count; i++) filtered_indices[i] = i;` run for
`app_count` passes on the array `filtered_indices`. -/
def init_indices : Nat → (Nat → Nat) → (Nat → Nat)
  | 0, filtered_indices => filtered_indices
  | n + 1, filtered_indices => Function.update (init_indices n filtered_indices) n n

/-- The variables as `main` sets them before the loop (lines 118-130);
`mem0` is what the uninitialised array `filtered_indices` holds. -/
def init_state (apps : List App) (mem0 : Nat → Nat) : State :=
  { highlight := 0
    choice := -1
    offset := 0
    search := []
    filtered_indices := init_indices apps.length mem0
    filtered_count := apps.length
    running := true }

/-- The scroll adjustment of the render loop (lines 161-167):
`if (highlight < offset) offset = highlight;`
`if (highlight >= offset + max_visible) offset = highlight - max_visible + 1;`
It returns the new `offset`. -/
def scroll_adjust (offset highlight max_visible : Int) : Int :=
  let offset := if highlight < offset then highlight else offset
  if highlight ≥ offset + max_visible then highlight - max_visible + 1 else offset

/-- The part of one pass of the loop before `wgetch`, as far as it writes to
the variables: the scroll adjustment. -/
def render (max_visible : Int) (s : State) : State :=
  { s with offset := scroll_adjust s.offset s.highlight max_visible }

/-- The key handling of one pass of the loop (lines 205-240) for the key code
`c` returned by `wgetch`. `stale` is passed on to `filter_apps`. -/
def handle_key (stale : Nat → List Nat) (apps : List App) (s : State) (c : Int) : State :=
  if c = KEY_UP ∧ s.highlight > 0 then
    { s with highlight := s.highlight - 1 }
  else if c = KEY_DOWN ∧ s.highlight < (s.filtered_count : Int) - 1 then
    { s with highlight := s.highlight + 1 }
  else if c = KEY_NPAGE ∧ s.highlight < (s.filtered_count : Int) - 1 then
    let highlight := s.highlight + 5
    { s with highlight :=
        if highlight ≥ (s.filtered_count : Int) then (s.filtered_count : Int) - 1 else highlight }
  else if c = KEY_PPAGE ∧ s.highlight > 0 then
    let highlight := s.highlight - 5
    { s with highlight := if highlight < 0 then 0 else highlight }
  else if c = 10 then
    { s with choice := s.highlight, running := false }
  else if c = 27 ∨ c = 113 then
    { s with running := false }
  else if c = KEY_BACKSPACE ∨ c = 127 ∨ c = 8 then
    if s.search_len > 0 then
      let search := s.search.take (s.search_len - 1)
      let r := filter_apps stale apps s.filtered_indices search
      { s with search := search, filtered_indices := r.1, filtered_count := r.2,
               highlight := 0, offset := 0 }
    else s
  else if isprint c ∧ s.search_len < MAX_SEARCH - 1 then
    let search := s.search.take s.search_len ++ [c.toNat]
    let r := filter_apps stale apps s.filtered_indices search
    { s with search := search, filtered_indices := r.1, filtered_count := r.2,
             highlight := 0, offset := 0 }
  else s

/-- One input of the session: the key code `wgetch` returns, and what the
calls of `matches_search` made for this key find in their buffer. -/
structure Input where
  key : Int
  stale : Nat → List Nat

/-- One pass of the `while (1)` loop: render, then handle the key. -/
def loop_body (apps : List App) (max_visible : Int) (s : State) (k : Input) : State :=
  handle_key k.stale apps (render max_visible s) k.key

/-- The `while (1)` loop fed with a finite sequence of inputs: the state at
the head of the loop once the inputs are used up, or the state in which a
`break` left the loop. -/
def main_loop (apps : List App) (max_visible : Int) : State → List Input → State
  | s, [] => s
  | s, k :: rest =>
      if s.running then main_loop apps max_visible (loop_body apps max_visible s k) rest else s

/-- The three-way definition of the viewport adjustment, as the specification
words it (section 4.3). -/
def adjust_spec (offset highlight visible_capacity : Int) : Int :=
  if highlight < offset then highlight
  else if highlight ≥ offset + visible_capacity then highlight - visible_capacity + 1
  else offset

/-- The value of the call `matches_search(apps[i].display_name, search)` that
`filter_apps` makes for index `i`; false when `i` is no index of `apps`. -/
def matches_at (stale : Nat → List Nat) (apps : List App) (search : List Nat) (i : Nat) : Bool :=
  match apps[i]? with
  | some a => matches_search (stale i) a.display_name search
  | none => false

/-! ## Concrete data of the specification's scenarios -/

/-- The catalog of scenario 1, "Files", "Firefox", "GIMP", as native entries. -/
def scenario_catalog : List App :=
  [ { display_name := [70, 105, 108, 101, 115],
      file_name := [70, 105, 108, 101, 115, 46, 100, 101, 115, 107, 116, 111, 112],
      is_flatpak := false },
    { display_name := [70, 105, 114, 101, 102, 111, 120],
      file_name := [70, 105, 114, 101, 102, 111, 120, 46, 100, 101, 115, 107, 116, 111, 112],
      is_flatpak := false },
    { display_name := [71, 73, 77, 80],
      file_name := [71, 73, 77, 80, 46, 100, 101, 115, 107, 116, 111, 112],
      is_flatpak := false } ]

/-- The query "fi" of scenario 1. -/
def scenario_query : List Nat := [102, 105]

/-- An input with key code `c` whose calls of `matches_search` find an empty
string in their buffer. -/
def key_input (c : Int) : Input := { key := c, stale := fun _ => [] }

/-- What holds of the variables at the head of every pass of the loop:
`highlight` is non-negative and below `max(1, filtered_count)`, and `offset`
is non-negative. -/
def session_inv (s : State) : Prop :=
  0 ≤ s.highlight ∧ s.highlight < max 1 (s.filtered_count : Int) ∧ 0 ≤ s.offset

/-- The variables right after the scroll adjustment of the render that
follows the inputs `inputs`, in a session started on the catalog `apps`. -/
def after_adjust (apps : List App) (max_visible : Int) (mem0 : Nat → Nat)
    (inputs : List Input) : State :=
  render max_visible (main_loop apps max_visible (init_state apps mem0) inputs)

/-! ## Loading and sorting the catalog -/

/-- The string ".desktop". -/
def desktop_ext : List Nat := [46, 100, 101, 115, 107, 116, 111, 112]

/-- `void clean_name(char *name)`:
`char *ext = strstr(name, ".desktop"); if (ext) *ext = '\0';`
The result is the string left in `name`. -/
def clean_name (name : List Nat) : List Nat :=
  match strstr name desktop_ext with
  | some ext => name.take (name.length - ext.length)
  | none => name

/-- What `load_apps_from_dir` stores for the directory entry `d_name` (lines
74-79): nothing unless `strstr(entry->d_name, ".desktop")`, else the entry with
`file_name = strdup(d_name)` and `display_name = strdup(d_name)` passed through
`clean_name`. -/
def load_entry (d_name : List Nat) (is_flatpak : Bool) : Option App :=
  if (strstr d_name desktop_ext).isSome then
    some { display_name := clean_name d_name, file_name := d_name, is_flatpak := is_flatpak }
  else none

/-- `strcasecmp` of <strings.h> in the "C" locale: the difference of the first
pair of lower-cased bytes that differ, the end of a string counting as the byte
0; 0 when there is none. A byte 0 inside a list ends the string there, as the
terminator does in C. -/
def strcasecmp : List Nat → List Nat → Int
  | [], [] => 0
  | [], b :: _ => 0 - (tolower b : Int)
  | a :: _, [] => (tolower a : Int) - 0
  | a :: s, b :: t =>
      if (tolower a : Int) - (tolower b : Int) ≠ 0 then (tolower a : Int) - (tolower b : Int)
      else if a = 0 then 0
      else strcasecmp s t

/-- `int compare_apps(const void *a, const void *b)`:
`return strcasecmp(app_a->display_name, app_b->display_name);` -/
def compare_apps (app_a app_b : App) : Int :=
  strcasecmp app_a.display_name app_b.display_name

/-- `qsort` of <stdlib.h> with the comparison function `compar`, by its
contract: the elements of the array in ascending order of `compar`. C leaves
open which of two elements that compare equal comes first; this model keeps
their order. -/
def qsort (compar : App → App → Int) (base : List App) : List App :=
  base.insertionSort (fun a b => compar a b ≤ 0)

/-- The catalog that `main` works on: the loaded entries after
`qsort(apps, app_count, sizeof(App), compare_apps)` (line 110). -/
def sorted_catalog (loaded : List App) : List App :=
  qsort compare_apps loaded

/-- `apps[i].display_name`, the empty string when `i` is no index of `apps`. -/
def display_name_at (apps : List App) (i : Nat) : List Nat :=
  match apps[i]? with
  | some a => a.display_name
  | none => []

/-! ## After the loop: the launch -/

/-- The index `app_index = filtered_indices[choice]` that the code after the
loop reads (lines 247-248), `none` when the guard
`choice != -1 && choice < filtered_count` fails and nothing is launched. -/
def launched_index (s : State) : Option Nat :=
  if s.choice ≠ -1 ∧ s.choice < (s.filtered_count : Int) then
    some (s.filtered_indices s.choice.toNat)
  else none

/-- The entry `apps[app_index]` handed to the launcher, if any. -/
def launched_app (apps : List App) (s : State) : Option App :=
  match launched_index s with
  | some app_index => apps[app_index]?
  | none => none

/-- The Flatpak id `app_id` (lines 252-255):
`strncpy(app_id, file_name, sizeof(app_id) - 1);` into the uninitialised
`char app_id[512]`, then the cut at `strstr(app_id, ".desktop")`. `strncpy`
writes a terminator only when `file_name` is shorter than 511 bytes; otherwise
the string runs on into `stale`, what the memory from `app_id[511]` on holds. -/
def flatpak_app_id (stale : List Nat) (file_name : List Nat) : List Nat :=
  let app_id := if file_name.length < 511 then file_name else file_name.take 511 ++ stale
  match strstr app_id desktop_ext with
  | some ext => app_id.take (app_id.length - ext.length)
  | none => app_id

/-- The command passed to `system` (lines 251-262); `snprintf` keeps at most
1023 bytes of it. -/
def launch_command (stale : List Nat) (app : App) : List Nat :=
  if app.is_flatpak then
    ([102, 108, 97, 116, 112, 97, 107, 32, 114, 117, 110, 32]
      ++ flatpak_app_id stale app.file_name
      ++ [32, 62, 47, 100, 101, 118, 47, 110, 117, 108, 108, 32, 50, 62, 38, 49, 32, 38]).take 1023
  else
    ([103, 116, 107, 45, 108, 97, 117, 110, 99, 104, 32]
      ++ app.file_name
      ++ [32, 62, 47, 100, 101, 118, 47, 110, 117, 108, 108, 32, 50, 62, 38, 49, 32, 38]).take 1023

/-- The positions `list_index` at which the row loop of the render (lines
170-195) reads `filtered_indices`: `i + offset` for `0 ≤ i < max_visible`
whenever `list_index < filtered_count`. -/
def render_reads (max_visible : Int) (s : State) : List Int :=
  (List.range max_visible.toNat).filterMap fun (i : Nat) =>
    if (i : Int) + s.offset < (s.filtered_count : Int) then some ((i : Int) + s.offset) else none

/-- The position `choice` at which the code after the loop reads
`filtered_indices`, if its guard lets it. -/
def launch_read (s : State) : Option Int :=
  if s.choice ≠ -1 ∧ s.choice < (s.filtered_count : Int) then some s.choice else none

/-- The state at the head of the loop after the inputs `inputs` (or in which
the loop was left), in a session started on the catalog `apps`. -/
def state_after (apps : List App) (max_visible : Int) (mem0 : Nat → Nat)
    (inputs : List Input) : State :=
  main_loop apps max_visible (init_state apps mem0) inputs

/-- What holds of `choice` and of the valid part of `filtered_indices` in
every state of a session on `apps`: `choice` is -1 or non-negative, and every
stored index is an index of the catalog. -/
def read_inv (apps : List App) (s : State) : Prop :=
  (s.choice = -1 ∨ 0 ≤ s.choice) ∧ ∀ j, j < s.filtered_count → s.filtered_indices j < apps.length

/-- The state that the key 'z' (122) gives in the initial state on the catalog
of scenario 1: no entry matches the query "z". -/
def scenario_no_match : State :=
  handle_key (fun _ => []) scenario_catalog (init_state scenario_catalog (fun _ => 0)) 122

/-- The file name "a.desktop.desktop": it ends with ".desktop" and holds
".desktop" once more before that. -/
def double_ext_name : List Nat :=
  [97, 46, 100, 101, 115, 107, 116, 111, 112, 46, 100, 101, 115, 107, 116, 111, 112]

/-- The catalog that loading a directory with the single file ".desktop"
gives: one native entry whose display name is empty. -/
def hidden_file_catalog : List App :=
  [ { display_name := [], file_name := desktop_ext, is_flatpak := false } ]

/-! ## Lemmas on strings -/

theorem lower_loop_eq (limit : Nat) (src : List Nat) :
    ∀ (i : Nat) (dst : List Nat), src ≠ [] → i < limit →
      lower_loop limit i src dst = dst.take i ++ (src.take (limit - i)).map tolower := by
  induction src with
  | nil => intro i dst h; exact absurd rfl h
  | cons c rest ih =>
    intro i dst _ hi
    obtain ⟨k, hk⟩ : ∃ k, limit - i = k + 1 := ⟨limit - i - 1, by omega⟩
    rw [lower_loop, if_pos hi, hk, List.take_succ_cons, List.map_cons]
    cases rest with
    | nil => simp [lower_loop]
    | cons d rest2 =>
      by_cases h1 : i + 1 < limit
      · rw [ih (i + 1) _ (by simp) h1]
        have hlen : (List.take i dst ++ [tolower c]).length ≤ i + 1 := by
          simp only [List.length_append, List.length_take, List.length_singleton]
          omega
        rw [List.take_of_length_le hlen]
        have hk2 : limit - (i + 1) = k := by omega
        rw [hk2]
        simp
      · have hk0 : k = 0 := by omega
        subst hk0
        simp [lower_loop, h1]

theorem lower_loop_cons_indep (limit : Nat) (src dst : List Nat) (h : src ≠ []) (hl : 0 < limit) :
    lower_loop limit 0 src dst = (src.take limit).map tolower := by
  rw [lower_loop_eq limit src 0 dst h hl]
  simp

theorem strstr_isSome_iff (needle : List Nat) :
    ∀ hay : List Nat, (strstr hay needle).isSome = true ↔ needle <:+: hay := by
  intro hay
  induction hay with
  | nil =>
    cases needle with
    | nil => simp [strstr]
    | cons a t => simp [strstr]
  | cons c rest ih =>
    rw [strstr, List.infix_cons_iff]
    by_cases hp : needle.isPrefixOf (c :: rest) = true
    · rw [if_pos hp]
      have : needle <+: c :: rest := List.isPrefixOf_iff_prefix.mp hp
      simp [this]
    · rw [if_neg hp, ih]
      have : ¬ needle <+: c :: rest := fun h => hp (List.isPrefixOf_iff_prefix.mpr h)
      simp [this]

theorem matches_search_empty (stale name : List Nat) : matches_search stale name [] = true := by
  simp [matches_search]

theorem matches_search_eq (stale name query : List Nat) (hn : name ≠ []) (hq : query ≠ []) :
    matches_search stale name query
      = decide ((query.take 63).map tolower <:+: (name.take 255).map tolower) := by
  have hlen : query.length ≠ 0 := by
    intro h
    exact hq (List.length_eq_zero.mp h)
  rw [matches_search, if_neg hlen]
  simp only [MAX_SEARCH]
  rw [lower_loop_cons_indep 255 name stale hn (by decide),
    lower_loop_cons_indep (64 - 1) query [] hq (by decide)]
  rw [Bool.eq_iff_iff, strstr_isSome_iff]
  simp

theorem matches_search_empty_name (stale query : List Nat) (hq : query ≠ []) :
    matches_search stale [] query = decide ((query.take 63).map tolower <:+: stale) := by
  have hlen : query.length ≠ 0 := fun h => hq (List.length_eq_zero.mp h)
  rw [matches_search, if_neg hlen]
  simp only [MAX_SEARCH]
  rw [lower_loop_cons_indep (64 - 1) query [] hq (by decide), lower_loop]
  rw [Bool.eq_iff_iff, strstr_isSome_iff]
  simp

/-! ## Lemmas on the filter -/

theorem entries_update (a : Nat → Nat) (count v : Nat) :
    entries (Function.update a count v, count + 1) = entries (a, count) ++ [v] := by
  simp only [entries, List.range_succ, List.map_append, List.map_cons, List.map_nil,
    Function.update_same]
  congr 1
  apply List.map_congr_left
  intro j hj
  have hne : j ≠ count := Nat.ne_of_lt (List.mem_range.mp hj)
  exact Function.update_noteq hne v a

theorem matches_at_append (stale : Nat → List Nat) (search : List Nat) (pre : List App)
    (a : App) (rest : List App) :
    matches_at stale (pre ++ a :: rest) search pre.length
      = matches_search (stale pre.length) a.display_name search := by
  have h : (pre ++ a :: rest)[pre.length]? = some a := by
    rw [List.getElem?_append_right (Nat.le_refl _)]
    simp
  rw [matches_at, h]

theorem filter_loop_spec (stale : Nat → List Nat) (search : List Nat) (rest : List App) :
    ∀ (pre : List App) (a : Nat → Nat) (count : Nat),
      entries (filter_loop stale search rest pre.length a count)
          = entries (a, count)
            ++ (List.range' pre.length rest.length).filter (matches_at stale (pre ++ rest) search)
      ∧ (filter_loop stale search rest pre.length a count).2
          = count
            + ((List.range' pre.length rest.length).filter
                (matches_at stale (pre ++ rest) search)).length := by
  induction rest with
  | nil => intro pre a count; simp [filter_loop]
  | cons b rest ih =>
    intro pre a count
    have hpre : (pre ++ [b]).length = pre.length + 1 := by simp
    have happ : pre ++ b :: rest = (pre ++ [b]) ++ rest := by simp
    have hr : List.range' pre.length (b :: rest).length
        = pre.length :: List.range' (pre.length + 1) rest.length := by
      simp [List.range'_succ]
    rw [filter_loop, hr, List.filter_cons, matches_at_append]
    by_cases hm : matches_search (stale pre.length) b.display_name search = true
    · rw [if_pos hm, if_pos hm]
      have := ih (pre ++ [b]) (Function.update a count pre.length) (count + 1)
      rw [hpre, ← happ, entries_update] at this
      refine ⟨?_, ?_⟩
      · rw [this.1]; simp
      · rw [this.2]; simp; omega
    · rw [if_neg hm, if_neg hm]
      have := ih (pre ++ [b]) a count
      rw [hpre, ← happ] at this
      exact this

theorem filter_apps_entries (stale : Nat → List Nat) (apps : List App) (a : Nat → Nat)
    (search : List Nat) :
    entries (filter_apps stale apps a search)
      = (List.range apps.length).filter (matches_at stale apps search) := by
  have h := (filter_loop_spec stale search apps [] a 0).1
  simp only [List.length_nil, List.nil_append] at h
  rw [filter_apps, h, List.range_eq_range']
  simp [entries]

theorem filter_apps_count (stale : Nat → List Nat) (apps : List App) (a : Nat → Nat)
    (search : List Nat) :
    (filter_apps stale apps a search).2
      = ((List.range apps.length).filter (matches_at stale apps search)).length := by
  have h := (filter_loop_spec stale search apps [] a 0).2
  simp only [List.length_nil, List.nil_append] at h
  rw [filter_apps, h, List.range_eq_range']
  simp

theorem matches_at_iff (stale : Nat → List Nat) (apps : List App) (search : List Nat) (i : Nat) :
    matches_at stale apps search i = true
      ↔ ∃ h : i < apps.length,
          matches_search (stale i) (apps.get ⟨i, h⟩).display_name search = true := by
  unfold matches_at
  by_cases hi : i < apps.length
  · rw [List.getElem?_eq_getElem hi]
    simp [hi]
  · rw [List.getElem?_eq_none (by omega)]
    simp [hi]

theorem entries_init_indices (n : Nat) (mem0 : Nat → Nat) :
    entries (init_indices n mem0, n) = List.range n := by
  induction n with
  | zero => simp [entries]
  | succ n ih => rw [init_indices, entries_update, ih, List.range_succ]

/-! ## Lemmas on the session -/

theorem scroll_adjust_window (offset highlight max_visible : Int) (hcap : 1 ≤ max_visible) :
    scroll_adjust offset highlight max_visible ≤ highlight
    ∧ highlight < scroll_adjust offset highlight max_visible + max_visible := by
  unfold scroll_adjust
  simp only []
  split_ifs <;> constructor <;> omega

theorem session_inv_init (apps : List App) (mem0 : Nat → Nat) :
    session_inv (init_state apps mem0) := by
  simp [session_inv, init_state]

theorem session_inv_render (max_visible : Int) (s : State) (h : session_inv s) :
    session_inv (render max_visible s) := by
  obtain ⟨h1, h2, h3⟩ := h
  refine ⟨h1, h2, ?_⟩
  simp only [render, scroll_adjust]
  split_ifs <;> omega

theorem session_inv_handle_key (stale : Nat → List Nat) (apps : List App) (s : State) (c : Int)
    (h : session_inv s) : session_inv (handle_key stale apps s c) := by
  obtain ⟨h1, h2, h3⟩ := h
  rw [lt_max_iff] at h2
  unfold handle_key
  simp only [session_inv, lt_max_iff]
  split_ifs <;> (try simp only []) <;> refine ⟨?_, ?_, ?_⟩ <;> omega

theorem session_inv_main_loop (apps : List App) (max_visible : Int) (inputs : List Input) :
    ∀ s : State, session_inv s → session_inv (main_loop apps max_visible s inputs) := by
  induction inputs with
  | nil => intro s h; exact h
  | cons k rest ih =>
    intro s h
    rw [main_loop]
    split_ifs
    · exact ih _ (session_inv_handle_key _ _ _ _ (session_inv_render _ _ h))
    · exact h

theorem handle_key_up (stale : Nat → List Nat) (apps : List App) (s : State) :
    handle_key stale apps s KEY_UP
      = if s.highlight > 0 then { s with highlight := s.highlight - 1 } else s := by
  by_cases h : s.highlight > 0
  · simp [handle_key, KEY_UP, h]
  · simp [handle_key, KEY_UP, KEY_DOWN, KEY_NPAGE, KEY_PPAGE, KEY_BACKSPACE, isprint, h]

theorem handle_key_down (stale : Nat → List Nat) (apps : List App) (s : State) :
    handle_key stale apps s KEY_DOWN
      = if s.highlight < (s.filtered_count : Int) - 1 then { s with highlight := s.highlight + 1 }
        else s := by
  by_cases h : s.highlight < (s.filtered_count : Int) - 1
  · simp [handle_key, KEY_UP, KEY_DOWN, h]
  · simp [handle_key, KEY_UP, KEY_DOWN, KEY_NPAGE, KEY_PPAGE, KEY_BACKSPACE, isprint, h]

theorem handle_key_npage (stale : Nat → List Nat) (apps : List App) (s : State) :
    handle_key stale apps s KEY_NPAGE
      = if s.highlight < (s.filtered_count : Int) - 1 then
          { s with highlight :=
              if s.highlight + 5 ≥ (s.filtered_count : Int) then (s.filtered_count : Int) - 1
              else s.highlight + 5 }
        else s := by
  by_cases h : s.highlight < (s.filtered_count : Int) - 1
  · simp [handle_key, KEY_UP, KEY_DOWN, KEY_NPAGE, h]
  · simp [handle_key, KEY_UP, KEY_DOWN, KEY_NPAGE, KEY_PPAGE, KEY_BACKSPACE, isprint, h]

theorem handle_key_ppage (stale : Nat → List Nat) (apps : List App) (s : State) :
    handle_key stale apps s KEY_PPAGE
      = if s.highlight > 0 then
          { s with highlight := if s.highlight - 5 < 0 then 0 else s.highlight - 5 }
        else s := by
  by_cases h : s.highlight > 0
  · simp [handle_key, KEY_UP, KEY_DOWN, KEY_NPAGE, KEY_PPAGE, h]
  · simp [handle_key, KEY_UP, KEY_DOWN, KEY_NPAGE, KEY_PPAGE, KEY_BACKSPACE, isprint, h]

theorem handle_key_backspace (stale : Nat → List Nat) (apps : List App) (s : State) (c : Int)
    (hc : c = KEY_BACKSPACE ∨ c = 127 ∨ c = 8) :
    handle_key stale apps s c
      = if s.search_len > 0 then
          { s with
            search := s.search.take (s.search_len - 1)
            filtered_indices :=
              (filter_apps stale apps s.filtered_indices (s.search.take (s.search_len - 1))).1
            filtered_count :=
              (filter_apps stale apps s.filtered_indices (s.search.take (s.search_len - 1))).2
            highlight := 0
            offset := 0 }
        else s := by
  rcases hc with h | h | h <;> subst h <;>
    simp [handle_key, KEY_UP, KEY_DOWN, KEY_NPAGE, KEY_PPAGE, KEY_BACKSPACE]

theorem handle_key_printable (stale : Nat → List Nat) (apps : List App) (s : State) (c : Int)
    (hp : isprint c = true) (hq : c ≠ 113) (hlen : s.search_len < MAX_SEARCH - 1) :
    handle_key stale apps s c
      = { s with
          search := s.search.take s.search_len ++ [c.toNat]
          filtered_indices :=
            (filter_apps stale apps s.filtered_indices (s.search.take s.search_len ++ [c.toNat])).1
          filtered_count :=
            (filter_apps stale apps s.filtered_indices (s.search.take s.search_len ++ [c.toNat])).2
          highlight := 0
          offset := 0 } := by
  have hr : 32 ≤ c ∧ c ≤ 126 := by simpa [isprint] using hp
  have h1 : ¬ (c = KEY_UP ∧ s.highlight > 0) := by simp only [KEY_UP]; omega
  have h2 : ¬ (c = KEY_DOWN ∧ s.highlight < (s.filtered_count : Int) - 1) := by
    simp only [KEY_DOWN]; omega
  have h3 : ¬ (c = KEY_NPAGE ∧ s.highlight < (s.filtered_count : Int) - 1) := by
    simp only [KEY_NPAGE]; omega
  have h4 : ¬ (c = KEY_PPAGE ∧ s.highlight > 0) := by simp only [KEY_PPAGE]; omega
  have h5 : ¬ (c = 10) := by omega
  have h6 : ¬ (c = 27 ∨ c = 113) := by omega
  have h7 : ¬ (c = KEY_BACKSPACE ∨ c = 127 ∨ c = 8) := by simp only [KEY_BACKSPACE]; omega
  rw [handle_key, if_neg h1, if_neg h2, if_neg h3, if_neg h4, if_neg h5, if_neg h6, if_neg h7,
    if_pos ⟨hp, hlen⟩]

theorem handle_key_quit (stale : Nat → List Nat) (apps : List App) (s : State) :
    handle_key stale apps s 113 = { s with running := false } := by
  simp [handle_key, KEY_UP, KEY_DOWN, KEY_NPAGE, KEY_PPAGE]


theorem handle_key_enter (stale : Nat → List Nat) (apps : List App) (s : State) :
    handle_key stale apps s 10 = { s with choice := s.highlight, running := false } := by
  simp [handle_key, KEY_UP, KEY_DOWN, KEY_NPAGE, KEY_PPAGE]

theorem handle_key_ignored (stale : Nat → List Nat) (apps : List App) (s : State) (c : Int)
    (hnav : c ≠ KEY_UP ∧ c ≠ KEY_DOWN ∧ c ≠ KEY_NPAGE ∧ c ≠ KEY_PPAGE)
    (henter : c ≠ 10) (hquit : c ≠ 27 ∧ c ≠ 113)
    (hback : c ≠ KEY_BACKSPACE ∧ c ≠ 127 ∧ c ≠ 8) (hprint : isprint c = false) :
    handle_key stale apps s c = s := by
  have h1 : ¬ (c = KEY_UP ∧ s.highlight > 0) := fun h => hnav.1 h.1
  have h2 : ¬ (c = KEY_DOWN ∧ s.highlight < (s.filtered_count : Int) - 1) :=
    fun h => hnav.2.1 h.1
  have h3 : ¬ (c = KEY_NPAGE ∧ s.highlight < (s.filtered_count : Int) - 1) :=
    fun h => hnav.2.2.1 h.1
  have h4 : ¬ (c = KEY_PPAGE ∧ s.highlight > 0) := fun h => hnav.2.2.2 h.1
  have h6 : ¬ (c = 27 ∨ c = 113) := fun h => h.elim hquit.1 hquit.2
  have h7 : ¬ (c = KEY_BACKSPACE ∨ c = 127 ∨ c = 8) :=
    fun h => h.elim hback.1 (fun h => h.elim hback.2.1 hback.2.2)
  have h8 : ¬ (isprint c = true ∧ s.search_len < MAX_SEARCH - 1) := by
    rw [hprint]
    exact fun h => Bool.false_ne_true h.1
  rw [handle_key, if_neg h1, if_neg h2, if_neg h3, if_neg h4, if_neg henter, if_neg h6,
    if_neg h7, if_neg h8]

theorem handle_key_full (stale : Nat → List Nat) (apps : List App) (s : State) (c : Int)
    (hp : isprint c = true) (hlen : ¬ s.search_len < MAX_SEARCH - 1) :
    handle_key stale apps s c = s ∨ handle_key stale apps s c = { s with running := false } := by
  have hr : 32 ≤ c ∧ c ≤ 126 := by simpa [isprint] using hp
  have h1 : ¬ (c = KEY_UP ∧ s.highlight > 0) := by simp only [KEY_UP]; omega
  have h2 : ¬ (c = KEY_DOWN ∧ s.highlight < (s.filtered_count : Int) - 1) := by
    simp only [KEY_DOWN]; omega
  have h3 : ¬ (c = KEY_NPAGE ∧ s.highlight < (s.filtered_count : Int) - 1) := by
    simp only [KEY_NPAGE]; omega
  have h4 : ¬ (c = KEY_PPAGE ∧ s.highlight > 0) := by simp only [KEY_PPAGE]; omega
  have h5 : ¬ (c = 10) := by omega
  have h7 : ¬ (c = KEY_BACKSPACE ∨ c = 127 ∨ c = 8) := by simp only [KEY_BACKSPACE]; omega
  have h8 : ¬ (isprint c = true ∧ s.search_len < MAX_SEARCH - 1) := fun h => hlen h.2
  rw [handle_key, if_neg h1, if_neg h2, if_neg h3, if_neg h4, if_neg h5]
  by_cases h6 : c = 27 ∨ c = 113
  · rw [if_pos h6]; exact Or.inr rfl
  · rw [if_neg h6, if_neg h7, if_neg h8]; exact Or.inl rfl

theorem search_len_handle_key (stale : Nat → List Nat) (apps : List App) (s : State) (c : Int)
    (h : s.search.length ≤ MAX_SEARCH - 1) :
    (handle_key stale apps s c).search.length ≤ MAX_SEARCH - 1 := by
  unfold handle_key
  simp only [MAX_SEARCH, State.search_len] at h ⊢
  split_ifs <;> (try simp only [List.length_append, List.length_take, List.length_singleton]) <;>
    omega

theorem search_len_main_loop (apps : List App) (max_visible : Int) (inputs : List Input) :
    ∀ s : State, s.search.length ≤ MAX_SEARCH - 1 →
      (main_loop apps max_visible s inputs).search.length ≤ MAX_SEARCH - 1 := by
  induction inputs with
  | nil => intro s h; exact h
  | cons k rest ih =>
    intro s h
    rw [main_loop]
    split_ifs
    · exact ih _ (search_len_handle_key _ _ _ _ h)
    · exact h

theorem main_loop_stopped (apps : List App) (max_visible : Int) (s : State) (inputs : List Input)
    (h : s.running = false) : main_loop apps max_visible s inputs = s := by
  cases inputs with
  | nil => rfl
  | cons k rest => rw [main_loop, h]; rfl



theorem filter_matches_at_nil (stale : Nat → List Nat) (apps : List App) :
    (List.range apps.length).filter (matches_at stale apps []) = List.range apps.length := by
  rw [List.filter_eq_self]
  intro i hi
  rw [matches_at_iff]
  exact ⟨List.mem_range.mp hi, matches_search_empty _ _⟩

theorem matches_at_indep (st1 st2 : Nat → List Nat) (apps : List App) (search : List Nat)
    (hne : ∀ a ∈ apps, a.display_name ≠ []) (i : Nat) :
    matches_at st1 apps search i = matches_at st2 apps search i := by
  unfold matches_at
  by_cases hi : i < apps.length
  · rw [List.getElem?_eq_getElem hi]
    simp only []
    have hn := hne apps[i] (List.getElem_mem hi)
    by_cases hs : search = []
    · rw [hs, matches_search_empty, matches_search_empty]
    · rw [matches_search_eq _ _ _ hn hs, matches_search_eq _ _ _ hn hs]
  · rw [List.getElem?_eq_none (by omega)]

theorem entries_mem_of_lt (r : (Nat → Nat) × Nat) (j : Nat) (hj : j < r.2) :
    r.1 j ∈ entries r := by
  simp only [entries, List.mem_map, List.mem_range]
  exact ⟨j, hj, rfl⟩

theorem filter_apps_lt (stale : Nat → List Nat) (apps : List App) (a : Nat → Nat)
    (search : List Nat) (j : Nat) (hj : j < (filter_apps stale apps a search).2) :
    (filter_apps stale apps a search).1 j < apps.length := by
  have h := entries_mem_of_lt _ j hj
  rw [filter_apps_entries, List.mem_filter, List.mem_range] at h
  exact h.1

theorem init_indices_lt (n : Nat) (mem0 : Nat → Nat) (j : Nat) (hj : j < n) :
    init_indices n mem0 j = j := by
  induction n with
  | zero => omega
  | succ n ih =>
    rw [init_indices]
    by_cases h : j = n
    · subst h; exact Function.update_same _ _ _
    · rw [Function.update_noteq h]
      exact ih (by omega)

theorem filtered_handle_key (stale : Nat → List Nat) (apps : List App) (s : State) (c : Int)
    (h : ∃ st, s.filtered = (List.range apps.length).filter (matches_at st apps s.search)) :
    ∃ st, (handle_key stale apps s c).filtered
        = (List.range apps.length).filter
            (matches_at st apps (handle_key stale apps s c).search) := by
  unfold handle_key
  split_ifs
  all_goals first
    | exact h
    | exact ⟨stale, filter_apps_entries stale apps s.filtered_indices _⟩

theorem filtered_main_loop (apps : List App) (max_visible : Int) (inputs : List Input) :
    ∀ s : State,
      (∃ st, s.filtered = (List.range apps.length).filter (matches_at st apps s.search)) →
      ∃ st, (main_loop apps max_visible s inputs).filtered
        = (List.range apps.length).filter
            (matches_at st apps (main_loop apps max_visible s inputs).search) := by
  induction inputs with
  | nil => intro s h; exact h
  | cons k rest ih =>
    intro s h
    rw [main_loop]
    split_ifs
    · exact ih _ (filtered_handle_key _ _ _ _ h)
    · exact h

theorem filtered_init (apps : List App) (mem0 : Nat → Nat) (st : Nat → List Nat) :
    (init_state apps mem0).filtered
      = (List.range apps.length).filter (matches_at st apps (init_state apps mem0).search) := by
  have h : (init_state apps mem0).search = [] := rfl
  rw [h, filter_matches_at_nil]
  exact entries_init_indices apps.length mem0

theorem read_inv_init (apps : List App) (mem0 : Nat → Nat) :
    read_inv apps (init_state apps mem0) :=
  ⟨Or.inl rfl, fun j hj => by
    have := init_indices_lt apps.length mem0 j hj
    simp only [init_state] at hj ⊢
    omega⟩

theorem read_inv_handle_key (stale : Nat → List Nat) (apps : List App) (s : State) (c : Int)
    (hh : 0 ≤ s.highlight) (h : read_inv apps s) : read_inv apps (handle_key stale apps s c) := by
  obtain ⟨h1, h2⟩ := h
  unfold handle_key
  split_ifs
  all_goals first
    | exact ⟨h1, h2⟩
    | exact ⟨Or.inr hh, h2⟩
    | exact ⟨h1, fun j hj => filter_apps_lt stale apps s.filtered_indices _ j hj⟩

theorem read_inv_main_loop (apps : List App) (max_visible : Int) (inputs : List Input) :
    ∀ s : State, session_inv s → read_inv apps s →
      read_inv apps (main_loop apps max_visible s inputs) := by
  induction inputs with
  | nil => intro s _ h; exact h
  | cons k rest ih =>
    intro s hs h
    rw [main_loop]
    split_ifs
    · have hr := session_inv_render max_visible s hs
      exact ih _ (session_inv_handle_key _ _ _ _ hr)
        (read_inv_handle_key k.stale apps (render max_visible s) k.key hr.1 h)
    · exact h



theorem filter_apps_count_le (stale : Nat → List Nat) (apps : List App) (a : Nat → Nat)
    (search : List Nat) : (filter_apps stale apps a search).2 ≤ apps.length := by
  rw [filter_apps_count]
  have h := List.length_filter_le (matches_at stale apps search) (List.range apps.length)
  rw [List.length_range] at h
  exact h

theorem range_handle_key (stale : Nat → List Nat) (apps : List App) (s : State) (c : Int)
    (h : s.filtered_count ≤ apps.length ∧ s.offset ≤ (apps.length : Int)) :
    (handle_key stale apps s c).filtered_count ≤ apps.length
    ∧ (handle_key stale apps s c).offset ≤ (apps.length : Int) := by
  obtain ⟨h1, h2⟩ := h
  have h0 : (0 : Int) ≤ (apps.length : Int) := Int.ofNat_nonneg _
  unfold handle_key
  split_ifs
  all_goals first
    | exact ⟨h1, h2⟩
    | exact ⟨filter_apps_count_le stale apps s.filtered_indices _, h0⟩

theorem highlight_le_length (apps : List App) (s : State) (hs : session_inv s)
    (hc : s.filtered_count ≤ apps.length) : s.highlight ≤ (apps.length : Int) := by
  obtain ⟨_, h2, _⟩ := hs
  rw [lt_max_iff] at h2
  omega

theorem range_render (apps : List App) (max_visible : Int) (s : State) (hcap : 1 ≤ max_visible)
    (hs : session_inv s)
    (h : s.filtered_count ≤ apps.length ∧ s.offset ≤ (apps.length : Int)) :
    (render max_visible s).filtered_count ≤ apps.length
    ∧ (render max_visible s).offset ≤ (apps.length : Int) := by
  have hh := highlight_le_length apps s hs h.1
  refine ⟨h.1, ?_⟩
  have h2 := h.2
  simp only [render, scroll_adjust]
  split_ifs <;> omega

theorem range_main_loop (apps : List App) (max_visible : Int) (hcap : 1 ≤ max_visible)
    (inputs : List Input) :
    ∀ s : State, session_inv s →
      s.filtered_count ≤ apps.length ∧ s.offset ≤ (apps.length : Int) →
      (main_loop apps max_visible s inputs).filtered_count ≤ apps.length
      ∧ (main_loop apps max_visible s inputs).offset ≤ (apps.length : Int) := by
  induction inputs with
  | nil => intro s _ h; exact h
  | cons k rest ih =>
    intro s hs h
    rw [main_loop]
    split_ifs
    · have hr := session_inv_render max_visible s hs
      exact ih _ (session_inv_handle_key _ _ _ _ hr)
        (range_handle_key k.stale apps _ k.key (range_render apps max_visible s hcap hs h))
    · exact h

/-! ## Lemmas on the order of the catalog -/

theorem tolower_eq_zero (c : Nat) : tolower c = 0 ↔ c = 0 := by
  unfold tolower
  split_ifs <;> constructor <;> intro h <;> first | omega | contradiction

theorem strcasecmp_swap : ∀ s t : List Nat, strcasecmp t s = - strcasecmp s t := by
  intro s
  induction s with
  | nil =>
    intro t
    cases t with
    | nil => simp [strcasecmp]
    | cons b t => simp [strcasecmp]
  | cons a s ih =>
    intro t
    cases t with
    | nil => simp [strcasecmp]
    | cons b t =>
      have ha := tolower_eq_zero a
      have hb := tolower_eq_zero b
      rw [strcasecmp, strcasecmp]
      split_ifs <;> first | omega | exact ih t

theorem strcasecmp_nil_le (u : List Nat) : strcasecmp [] u ≤ 0 := by
  cases u with
  | nil => simp [strcasecmp]
  | cons c u => simp [strcasecmp]

theorem strcasecmp_trans : ∀ s t u : List Nat,
    strcasecmp s t ≤ 0 → strcasecmp t u ≤ 0 → strcasecmp s u ≤ 0 := by
  intro s
  induction s with
  | nil => intro t u _ _; exact strcasecmp_nil_le u
  | cons a s ih =>
    intro t u h1 h2
    have ha := tolower_eq_zero a
    cases t with
    | nil =>
      simp only [strcasecmp] at h1
      cases u with
      | nil => simp only [strcasecmp]; omega
      | cons c u =>
        rw [strcasecmp]
        split_ifs <;> omega
    | cons b t =>
      have hb := tolower_eq_zero b
      cases u with
      | nil =>
        simp only [strcasecmp] at h2
        rw [strcasecmp] at h1
        simp only [strcasecmp]
        split_ifs at h1 <;> omega
      | cons c u =>
        have hc := tolower_eq_zero c
        rw [strcasecmp] at h1 h2 ⊢
        split_ifs at h1 h2 ⊢ <;> first | omega | exact ih t u h1 h2

theorem compare_apps_total (a b : App) : compare_apps a b ≤ 0 ∨ compare_apps b a ≤ 0 := by
  unfold compare_apps
  have := strcasecmp_swap a.display_name b.display_name
  omega

theorem compare_apps_trans (a b c : App) (h1 : compare_apps a b ≤ 0)
    (h2 : compare_apps b c ≤ 0) : compare_apps a c ≤ 0 :=
  strcasecmp_trans _ _ _ h1 h2

theorem qsort_sorted (loaded : List App) :
    (qsort compare_apps loaded).Pairwise (fun a b => compare_apps a b ≤ 0) := by
  haveI : IsTotal App (fun a b => compare_apps a b ≤ 0) := ⟨compare_apps_total⟩
  haveI : IsTrans App (fun a b => compare_apps a b ≤ 0) := ⟨compare_apps_trans⟩
  exact List.sorted_insertionSort (fun a b => compare_apps a b ≤ 0) loaded



/-! ## Lemmas on `clean_name` and on narrowing -/

theorem strstr_of_isPrefixOf (hay needle : List Nat) (h : needle.isPrefixOf hay = true) :
    strstr hay needle = some hay := by
  cases hay with
  | nil => rw [strstr, if_pos h]
  | cons c rest => rw [strstr, if_pos h]

theorem strstr_single_occurrence (needle : List Nat) :
    ∀ base : List Nat,
      (∀ pre suf : List Nat, base ++ needle = pre ++ needle ++ suf → suf = []) →
      strstr (base ++ needle) needle = some needle := by
  intro base
  induction base with
  | nil =>
    intro _
    exact strstr_of_isPrefixOf _ _ (List.isPrefixOf_iff_prefix.mpr ⟨[], by simp⟩)
  | cons b bs ih =>
    intro h
    have hno : ¬ needle.isPrefixOf (b :: (bs ++ needle)) = true := by
      intro hp
      obtain ⟨r, hr⟩ := List.isPrefixOf_iff_prefix.mp hp
      have hnil := h [] r (by simp [hr])
      subst hnil
      have hl := congrArg List.length hr
      simp at hl
      omega
    rw [List.cons_append, strstr, if_neg hno]
    apply ih
    intro pre suf heq
    exact h (b :: pre) suf (by simp [heq])

theorem clean_name_single_ext (base : List Nat)
    (h : ∀ pre suf : List Nat, base ++ desktop_ext = pre ++ desktop_ext ++ suf → suf = []) :
    clean_name (base ++ desktop_ext) = base := by
  rw [clean_name, strstr_single_occurrence desktop_ext base h]
  simp

theorem lower_take_mono (q : List Nat) (c n : Nat) :
    (q.take n).map tolower <+: ((q ++ [c]).take n).map tolower :=
  List.IsPrefix.map tolower (List.IsPrefix.take ⟨[c], rfl⟩ n)

theorem matches_search_narrows (stale name q : List Nat) (c : Nat)
    (h : matches_search stale name (q ++ [c]) = true) : matches_search stale name q = true := by
  by_cases hq : q = []
  · rw [hq]; exact matches_search_empty _ _
  · have hqc : q ++ [c] ≠ [] := by simp
    have hpre := (lower_take_mono q c 63).isInfix
    by_cases hn : name = []
    · subst hn
      rw [matches_search_empty_name stale _ hqc] at h
      rw [matches_search_empty_name stale _ hq]
      exact decide_eq_true (hpre.trans (of_decide_eq_true h))
    · rw [matches_search_eq stale name _ hn hqc] at h
      rw [matches_search_eq stale name _ hn hq]
      exact decide_eq_true (hpre.trans (of_decide_eq_true h))

theorem filter_apps_narrows (stale : Nat → List Nat) (apps : List App) (a b : Nat → Nat)
    (q : List Nat) (c : Nat) (i : Nat)
    (h : i ∈ entries (filter_apps stale apps a (q ++ [c]))) :
    i ∈ entries (filter_apps stale apps b q) := by
  rw [filter_apps_entries, List.mem_filter, matches_at_iff] at h ⊢
  obtain ⟨hr, hi, hm⟩ := h
  exact ⟨hr, hi, matches_search_narrows _ _ q c hm⟩


/-! ## The claims -/

/-- C1: for every catalog and every query, the list that `filter_apps` writes
holds an index `i` iff `i` is an index of the catalog and
`matches_search(apps[i].display_name, search)` is true; the indices stand in
strictly increasing order (so in the catalog's order, without duplicates); and
the returned count is the number of matching entries. On scenario 1 the list
is `[0, 1]`. -/
theorem filter_apps_correct (stale : Nat → List Nat) (apps : List App) (a : Nat → Nat)
    (search : List Nat) :
    (∀ i, i ∈ entries (filter_apps stale apps a search)
        ↔ ∃ h : i < apps.length,
            matches_search (stale i) (apps.get ⟨i, h⟩).display_name search = true)
    ∧ (entries (filter_apps stale apps a search)).Pairwise (· < ·)
    ∧ (filter_apps stale apps a search).2 = (entries (filter_apps stale apps a search)).length
    ∧ (filter_apps stale apps a search).2
        = ((List.range apps.length).filter (matches_at stale apps search)).length
    ∧ entries (filter_apps stale scenario_catalog a scenario_query) = [0, 1] := by
  refine ⟨?_, ?_, ?_, filter_apps_count stale apps a search, ?_⟩
  · intro i
    rw [filter_apps_entries, List.mem_filter, matches_at_iff, List.mem_range]
    constructor
    · rintro ⟨_, h⟩; exact h
    · rintro ⟨h, hm⟩; exact ⟨h, h, hm⟩
  · rw [filter_apps_entries]
    exact List.Pairwise.filter _ (List.pairwise_lt_range _)
  · simp [entries]
  · rw [filter_apps_entries]
    simp [scenario_catalog, scenario_query, List.range_succ, List.filter_cons, matches_at,
      matches_search_eq]
    decide

/-- C2, counterexample: with the name "a" * 63 and the query "a" * 63 ++ "b"
(64 bytes, longer than the name) `matches_search` copies only the first 63
bytes of the query and returns true, although the lower-cased query does not
occur in the lower-cased name. -/
theorem matches_search_long_query :
    List.replicate 63 97 ++ [98] ≠ []
    ∧ matches_search [] (List.replicate 63 97) (List.replicate 63 97 ++ [98]) = true
    ∧ ¬ ((List.replicate 63 97 ++ [98]).map tolower <:+: (List.replicate 63 97).map tolower)
    ∧ (List.replicate 63 97).length < (List.replicate 63 97 ++ [98]).length := by
  refine ⟨by simp, ?_, ?_, by simp⟩
  · have h1 : (List.replicate 63 97 ++ [98]).take 63 = List.replicate 63 97 :=
      List.take_left' (by simp)
    have h2 : (List.replicate 63 97).take 255 = List.replicate 63 97 :=
      List.take_of_length_le (by simp)
    rw [matches_search_eq [] _ _ (by simp) (by simp), h1, h2]
    simp
  · intro h
    have := h.length_le
    simp at this

/-- C2, amended: for every non-empty name and every non-empty query,
`matches_search` returns true iff the lower-cased first 63 bytes of the query
occur as a contiguous substring of the lower-cased first 255 bytes of the name.
So for a non-empty name of at most 255 bytes and a non-empty query of at most
63 bytes it returns true iff the lower-cased query occurs in the lower-cased
name, and false when the query is longer than the name. -/
theorem matches_search_iff (stale name query : List Nat) (hn : name ≠ []) (hq : query ≠ []) :
    (matches_search stale name query = true
        ↔ (query.take 63).map tolower <:+: (name.take 255).map tolower)
    ∧ (name.length ≤ 255 → query.length ≤ 63 →
        (matches_search stale name query = true ↔ query.map tolower <:+: name.map tolower)
        ∧ (name.length < query.length → matches_search stale name query = false)) := by
  have key : matches_search stale name query = true
      ↔ (query.take 63).map tolower <:+: (name.take 255).map tolower := by
    rw [matches_search_eq stale name query hn hq]
    simp
  refine ⟨key, ?_⟩
  intro hnl hql
  rw [List.take_of_length_le hnl, List.take_of_length_le hql] at key
  refine ⟨key, ?_⟩
  intro hlt
  cases hm : matches_search stale name query with
  | false => rfl
  | true =>
    have := (key.mp hm).length_le
    simp only [List.length_map] at this
    omega

/-- C2, witness: the name "Files" and the query "fi". -/
theorem matches_search_iff_witness :
    ([70, 105, 108, 101, 115] : List Nat) ≠ [] ∧ scenario_query ≠ []
    ∧ ((matches_search [] [70, 105, 108, 101, 115] scenario_query = true
          ↔ (scenario_query.take 63).map tolower
              <:+: (List.take 255 [70, 105, 108, 101, 115]).map tolower)
      ∧ (List.length [70, 105, 108, 101, 115] ≤ 255 → scenario_query.length ≤ 63 →
          (matches_search [] [70, 105, 108, 101, 115] scenario_query = true
            ↔ scenario_query.map tolower <:+: List.map tolower [70, 105, 108, 101, 115])
          ∧ (List.length [70, 105, 108, 101, 115] < scenario_query.length →
              matches_search [] [70, 105, 108, 101, 115] scenario_query = false))) :=
  ⟨by decide, by decide,
    matches_search_iff [] [70, 105, 108, 101, 115] scenario_query (by decide) (by decide)⟩

/-- C3: for every catalog, `filter_apps` with the empty query returns the count
`apps.length` and writes the indices `0, 1, ..., apps.length - 1`, because
`matches_search` is true for every name when the query is empty; the session
starts with this same list and count. -/
theorem filter_apps_empty_query (stale : Nat → List Nat) (apps : List App) (a mem0 : Nat → Nat) :
    (filter_apps stale apps a []).2 = apps.length
    ∧ entries (filter_apps stale apps a []) = List.range apps.length
    ∧ (∀ st name : List Nat, matches_search st name [] = true)
    ∧ (init_state apps mem0).filtered = entries (filter_apps stale apps a [])
    ∧ (init_state apps mem0).filtered_count = (filter_apps stale apps a []).2
    ∧ (init_state apps mem0).search = [] := by
  have hall : (List.range apps.length).filter (matches_at stale apps []) = List.range apps.length := by
    rw [List.filter_eq_self]
    intro i hi
    rw [matches_at_iff]
    exact ⟨List.mem_range.mp hi, matches_search_empty _ _⟩
  have hc : (filter_apps stale apps a []).2 = apps.length := by
    rw [filter_apps_count, hall, List.length_range]
  have he : entries (filter_apps stale apps a []) = List.range apps.length := by
    rw [filter_apps_entries, hall]
  refine ⟨hc, he, matches_search_empty, ?_, ?_, rfl⟩
  · rw [he]
    exact entries_init_indices apps.length mem0
  · rw [hc]
    rfl

/-- C4: for all values `offset ≥ 0` and `highlight ≥ 0` and every capacity
at least 1, the offset that the scroll adjustment produces satisfies
`offset' ≤ highlight < offset' + capacity` and `offset' ≥ 0`. The adjustment
stands inline in `main`, and its variable `offset` is never negative there:
in every state reached from the initial state by any finite sequence of
inputs, `offset ≥ 0` and `highlight ≥ 0`, and with a capacity of at least 1
both are at most `app_count`, so nothing the adjustment computes comes near
the limits of `int`. -/
theorem scroll_adjust_contains (offset highlight max_visible : Int) (hcap : 1 ≤ max_visible)
    (hhl : 0 ≤ highlight) (hoff : 0 ≤ offset) :
    scroll_adjust offset highlight max_visible ≤ highlight
    ∧ highlight < scroll_adjust offset highlight max_visible + max_visible
    ∧ 0 ≤ scroll_adjust offset highlight max_visible
    ∧ (∀ (apps : List App) (mv : Int) (mem0 : Nat → Nat) (inputs : List Input),
        0 ≤ (state_after apps mv mem0 inputs).offset
        ∧ 0 ≤ (state_after apps mv mem0 inputs).highlight)
    ∧ (∀ (apps : List App) (mv : Int) (mem0 : Nat → Nat) (inputs : List Input), 1 ≤ mv →
        (state_after apps mv mem0 inputs).offset ≤ (apps.length : Int)
        ∧ (state_after apps mv mem0 inputs).highlight ≤ (apps.length : Int)) := by
  refine ⟨?_, ?_, ?_, ?_, ?_⟩
  · unfold scroll_adjust
    simp only []
    split_ifs <;> omega
  · unfold scroll_adjust
    simp only []
    split_ifs <;> omega
  · unfold scroll_adjust
    simp only []
    split_ifs <;> omega
  · intro apps mv mem0 inputs
    have hs := session_inv_main_loop apps mv inputs _ (session_inv_init apps mem0)
    exact ⟨hs.2.2, hs.1⟩
  · intro apps mv mem0 inputs hmv
    have hs := session_inv_main_loop apps mv inputs _ (session_inv_init apps mem0)
    have hr := range_main_loop apps mv hmv inputs _ (session_inv_init apps mem0)
      ⟨Nat.le_refl _, Int.ofNat_nonneg _⟩
    exact ⟨hr.2, highlight_le_length apps _ hs hr.1⟩

/-- C4, witness: `offset = 4`, `highlight = 1`, capacity 2, where the
adjustment scrolls up to `offset = 1`. -/
theorem scroll_adjust_contains_witness :
    (1 : Int) ≤ 2 ∧ (0 : Int) ≤ 1 ∧ (0 : Int) ≤ 4
    ∧ scroll_adjust 4 1 2 ≤ 1
    ∧ 1 < scroll_adjust 4 1 2 + 2
    ∧ 0 ≤ scroll_adjust 4 1 2 :=
  ⟨by decide, by decide, by decide,
    (scroll_adjust_contains 4 1 2 (by decide) (by decide) (by decide)).1,
    (scroll_adjust_contains 4 1 2 (by decide) (by decide) (by decide)).2.1,
    (scroll_adjust_contains 4 1 2 (by decide) (by decide) (by decide)).2.2.1⟩

/-- C5: for every offset and highlight and every visible capacity at least 1,
the two sequential `if` statements of the code give the value of the
specification's three-way definition. From offset 0 with capacity 2, as the
highlight goes 0, 1, 2 the offsets are 0, 0, 1. -/
theorem scroll_adjust_eq_spec (offset highlight max_visible : Int) (hcap : 1 ≤ max_visible) :
    scroll_adjust offset highlight max_visible = adjust_spec offset highlight max_visible
    ∧ scroll_adjust 0 0 2 = 0
    ∧ scroll_adjust (scroll_adjust 0 0 2) 1 2 = 0
    ∧ scroll_adjust (scroll_adjust (scroll_adjust 0 0 2) 1 2) 2 2 = 1 := by
  refine ⟨?_, by decide, by decide, by decide⟩
  unfold scroll_adjust adjust_spec
  simp only []
  split_ifs <;> omega

/-- C5, witness: `offset = 4`, `highlight = 1`, capacity 2. -/
theorem scroll_adjust_eq_spec_witness :
    (1 : Int) ≤ 2
    ∧ (scroll_adjust 4 1 2 = adjust_spec 4 1 2
      ∧ scroll_adjust 0 0 2 = 0
      ∧ scroll_adjust (scroll_adjust 0 0 2) 1 2 = 0
      ∧ scroll_adjust (scroll_adjust (scroll_adjust 0 0 2) 1 2) 2 2 = 1) :=
  ⟨by decide, scroll_adjust_eq_spec 4 1 2 (by decide)⟩

/-- C6: in a session started from the initial state (highlight 0, offset 0,
empty query) with a visible capacity of at least 1, after any finite sequence
of key codes the variables right after the scroll adjustment satisfy
`0 ≤ highlight < max(1, filtered_count)` and
`0 ≤ offset ≤ highlight < offset + max_visible`. This holds for every catalog,
so for the non-empty ones on which `main` starts a session. -/
theorem session_invariants (apps : List App) (max_visible : Int) (mem0 : Nat → Nat)
    (inputs : List Input) (hcap : 1 ≤ max_visible) :
    0 ≤ (after_adjust apps max_visible mem0 inputs).highlight
    ∧ (after_adjust apps max_visible mem0 inputs).highlight
        < max 1 ((after_adjust apps max_visible mem0 inputs).filtered_count : Int)
    ∧ 0 ≤ (after_adjust apps max_visible mem0 inputs).offset
    ∧ (after_adjust apps max_visible mem0 inputs).offset
        ≤ (after_adjust apps max_visible mem0 inputs).highlight
    ∧ (after_adjust apps max_visible mem0 inputs).highlight
        < (after_adjust apps max_visible mem0 inputs).offset + max_visible := by
  have hinv := session_inv_render max_visible _
    (session_inv_main_loop apps max_visible inputs _ (session_inv_init apps mem0))
  obtain ⟨h1, h2, h3⟩ := hinv
  have hc := scroll_adjust_window
    (main_loop apps max_visible (init_state apps mem0) inputs).offset
    (main_loop apps max_visible (init_state apps mem0) inputs).highlight max_visible hcap
  exact ⟨h1, h2, h3, hc.1, hc.2⟩

/-- C6, witness: the catalog of scenario 1 with capacity 2 after two presses
of the down key. -/
theorem session_invariants_witness :
    (1 : Int) ≤ 2
    ∧ (0 ≤ (after_adjust scenario_catalog 2 (fun _ => 0)
              [key_input KEY_DOWN, key_input KEY_DOWN]).highlight
      ∧ (after_adjust scenario_catalog 2 (fun _ => 0)
              [key_input KEY_DOWN, key_input KEY_DOWN]).highlight
          < max 1 ((after_adjust scenario_catalog 2 (fun _ => 0)
              [key_input KEY_DOWN, key_input KEY_DOWN]).filtered_count : Int)
      ∧ 0 ≤ (after_adjust scenario_catalog 2 (fun _ => 0)
              [key_input KEY_DOWN, key_input KEY_DOWN]).offset
      ∧ (after_adjust scenario_catalog 2 (fun _ => 0)
              [key_input KEY_DOWN, key_input KEY_DOWN]).offset
          ≤ (after_adjust scenario_catalog 2 (fun _ => 0)
              [key_input KEY_DOWN, key_input KEY_DOWN]).highlight
      ∧ (after_adjust scenario_catalog 2 (fun _ => 0)
              [key_input KEY_DOWN, key_input KEY_DOWN]).highlight
          < (after_adjust scenario_catalog 2 (fun _ => 0)
              [key_input KEY_DOWN, key_input KEY_DOWN]).offset + 2) :=
  ⟨by decide, session_invariants scenario_catalog 2 (fun _ => 0)
    [key_input KEY_DOWN, key_input KEY_DOWN] (by decide)⟩

/-- C7: in every state with `filtered_count > 0` and
`0 ≤ highlight < filtered_count` the navigation keys set `highlight` as the
transition table says with page size 5: KEY_UP gives `highlight - 1` if
`highlight > 0`, else `highlight`; KEY_DOWN gives `highlight + 1` if
`highlight < filtered_count - 1`, else `highlight`; KEY_NPAGE gives
`min(highlight + 5, filtered_count - 1)`; KEY_PPAGE gives
`max(highlight - 5, 0)`. After each of the four, `highlight` is again within
`0 .. filtered_count - 1`. -/
theorem navigation_keys (stale : Nat → List Nat) (apps : List App) (s : State)
    (hcount : 0 < s.filtered_count) (hlo : 0 ≤ s.highlight)
    (hhi : s.highlight < (s.filtered_count : Int)) :
    (handle_key stale apps s KEY_UP).highlight
        = (if s.highlight > 0 then s.highlight - 1 else s.highlight)
    ∧ (handle_key stale apps s KEY_DOWN).highlight
        = (if s.highlight < (s.filtered_count : Int) - 1 then s.highlight + 1 else s.highlight)
    ∧ (handle_key stale apps s KEY_NPAGE).highlight
        = min (s.highlight + 5) ((s.filtered_count : Int) - 1)
    ∧ (handle_key stale apps s KEY_PPAGE).highlight = max (s.highlight - 5) 0
    ∧ (∀ c, c = KEY_UP ∨ c = KEY_DOWN ∨ c = KEY_NPAGE ∨ c = KEY_PPAGE →
        0 ≤ (handle_key stale apps s c).highlight
        ∧ (handle_key stale apps s c).highlight ≤ (s.filtered_count : Int) - 1) := by
  have hpos : (0 : Int) < (s.filtered_count : Int) := by omega
  have hup : (handle_key stale apps s KEY_UP).highlight
      = (if s.highlight > 0 then s.highlight - 1 else s.highlight) := by
    rw [handle_key_up]; split_ifs <;> rfl
  have hdown : (handle_key stale apps s KEY_DOWN).highlight
      = (if s.highlight < (s.filtered_count : Int) - 1 then s.highlight + 1
         else s.highlight) := by
    rw [handle_key_down]; split_ifs <;> rfl
  have hnp : (handle_key stale apps s KEY_NPAGE).highlight
      = min (s.highlight + 5) ((s.filtered_count : Int) - 1) := by
    rw [handle_key_npage, min_def]
    split_ifs <;> (try simp only []) <;> omega
  have hpp : (handle_key stale apps s KEY_PPAGE).highlight = max (s.highlight - 5) 0 := by
    rw [handle_key_ppage, max_def]
    split_ifs <;> (try simp only []) <;> omega
  refine ⟨hup, hdown, hnp, hpp, ?_⟩
  intro c hc
  rcases hc with h | h | h | h <;> subst h
  · rw [hup]; split_ifs <;> omega
  · rw [hdown]; split_ifs <;> omega
  · rw [hnp, min_def]; split_ifs <;> omega
  · rw [hpp, max_def]; split_ifs <;> omega

/-- C7, witness: the initial state on the catalog of scenario 1
(`highlight = 0`, `filtered_count = 3`). -/
theorem navigation_keys_witness :
    0 < (init_state scenario_catalog (fun _ => 0)).filtered_count
    ∧ 0 ≤ (init_state scenario_catalog (fun _ => 0)).highlight
    ∧ (init_state scenario_catalog (fun _ => 0)).highlight
        < ((init_state scenario_catalog (fun _ => 0)).filtered_count : Int)
    ∧ (handle_key (fun _ => []) scenario_catalog
          (init_state scenario_catalog (fun _ => 0)) KEY_NPAGE).highlight
        = min ((init_state scenario_catalog (fun _ => 0)).highlight + 5)
            (((init_state scenario_catalog (fun _ => 0)).filtered_count : Int) - 1) :=
  ⟨by decide, by decide, by decide,
    (navigation_keys (fun _ => []) scenario_catalog (init_state scenario_catalog (fun _ => 0))
      (by decide) (by decide) (by decide)).2.2.1⟩

/-- C8, counterexample: 'q' (113) is a printable character, yet in the initial
state, whose query is empty, the key 'q' leaves the loop and the query stays
as it was. -/
theorem printable_q_quits :
    isprint 113 = true
    ∧ (init_state scenario_catalog (fun _ => 0)).running = true
    ∧ (init_state scenario_catalog (fun _ => 0)).search.length < 63
    ∧ (handle_key (fun _ => []) scenario_catalog
        (init_state scenario_catalog (fun _ => 0)) 113).running = false
    ∧ (handle_key (fun _ => []) scenario_catalog
        (init_state scenario_catalog (fun _ => 0)) 113).search
        = (init_state scenario_catalog (fun _ => 0)).search := by
  rw [handle_key_quit]
  exact ⟨by decide, rfl, by decide, rfl, rfl⟩

/-- C8, amended: for every printable character `c` other than 'q' and every
running state whose query holds fewer than 63 characters, the key `c` is the
AppendChar transition: the session keeps running, the new query is the old
query followed by `c`, and the filtered list and count are those that
`filter_apps` gives for the catalog and the new query. -/
theorem append_char (stale : Nat → List Nat) (apps : List App) (s : State) (c : Int)
    (hp : isprint c = true) (hq : c ≠ 113) (hrun : s.running = true)
    (hlen : s.search.length < 63) :
    (handle_key stale apps s c).running = true
    ∧ (handle_key stale apps s c).search = s.search ++ [c.toNat]
    ∧ (handle_key stale apps s c).filtered
        = entries (filter_apps stale apps s.filtered_indices (s.search ++ [c.toNat]))
    ∧ (handle_key stale apps s c).filtered_count
        = (filter_apps stale apps s.filtered_indices (s.search ++ [c.toNat])).2
    ∧ (handle_key stale apps s c).filtered
        = (List.range apps.length).filter
            (matches_at stale apps (handle_key stale apps s c).search) := by
  have hl : s.search_len < MAX_SEARCH - 1 := by
    simp only [State.search_len, MAX_SEARCH]; omega
  have ht : s.search.take s.search_len = s.search := by
    simp [State.search_len]
  rw [handle_key_printable stale apps s c hp hq hl, ht]
  refine ⟨hrun, rfl, rfl, rfl, ?_⟩
  simp only [State.filtered]
  exact filter_apps_entries stale apps s.filtered_indices _

/-- C8, witness: the key 'f' (102) in the initial state on the catalog of
scenario 1. -/
theorem append_char_witness :
    isprint 102 = true ∧ (102 : Int) ≠ 113
    ∧ (init_state scenario_catalog (fun _ => 0)).running = true
    ∧ (init_state scenario_catalog (fun _ => 0)).search.length < 63
    ∧ (handle_key (fun _ => []) scenario_catalog
        (init_state scenario_catalog (fun _ => 0)) 102).search
        = (init_state scenario_catalog (fun _ => 0)).search ++ [(102 : Int).toNat] :=
  ⟨by decide, by decide, rfl, by decide,
    (append_char (fun _ => []) scenario_catalog (init_state scenario_catalog (fun _ => 0)) 102
      (by decide) (by decide) rfl (by decide)).2.1⟩

/-- C9: for every state and every Backspace code (KEY_BACKSPACE, 127 or 8): if
the query is non-empty, the key removes exactly its last character, and the
filtered list and count become those that `filter_apps` gives for the catalog
and the shortened query; if the query is empty, the state is left as it is, so
the query stays empty and the filtered list, highlight and offset do not
change. -/
theorem backspace_key (stale : Nat → List Nat) (apps : List App) (s : State) (c : Int)
    (hc : c = KEY_BACKSPACE ∨ c = 127 ∨ c = 8) :
    (s.search ≠ [] →
        (handle_key stale apps s c).search = s.search.dropLast
        ∧ (∃ last, s.search = (handle_key stale apps s c).search ++ [last])
        ∧ (handle_key stale apps s c).filtered
            = entries (filter_apps stale apps s.filtered_indices s.search.dropLast)
        ∧ (handle_key stale apps s c).filtered_count
            = (filter_apps stale apps s.filtered_indices s.search.dropLast).2
        ∧ (handle_key stale apps s c).filtered
            = (List.range apps.length).filter
                (matches_at stale apps (handle_key stale apps s c).search))
    ∧ (s.search = [] →
        handle_key stale apps s c = s
        ∧ (handle_key stale apps s c).search = []
        ∧ (handle_key stale apps s c).filtered = s.filtered
        ∧ (handle_key stale apps s c).highlight = s.highlight
        ∧ (handle_key stale apps s c).offset = s.offset) := by
  rw [handle_key_backspace stale apps s c hc]
  constructor
  · intro hne
    have hpos : s.search_len > 0 := by
      simp only [State.search_len]
      exact List.length_pos.mpr hne
    have ht : s.search.take (s.search_len - 1) = s.search.dropLast := by
      simp only [State.search_len]
      exact (List.dropLast_eq_take s.search).symm
    rw [if_pos hpos, ht]
    refine ⟨rfl, ⟨s.search.getLast hne, ?_⟩, rfl, rfl, ?_⟩
    · exact (List.dropLast_append_getLast hne).symm
    · simp only [State.filtered]
      exact filter_apps_entries stale apps s.filtered_indices _
  · intro he
    have hz : ¬ s.search_len > 0 := by
      simp [State.search_len, he]
    rw [if_neg hz]
    exact ⟨rfl, he, rfl, rfl, rfl⟩

/-- C9, witness: the code 127 in the initial state on the catalog of
scenario 1, whose query is empty. -/
theorem backspace_key_witness :
    ((127 : Int) = KEY_BACKSPACE ∨ (127 : Int) = 127 ∨ (127 : Int) = 8)
    ∧ handle_key (fun _ => []) scenario_catalog (init_state scenario_catalog (fun _ => 0)) 127
        = init_state scenario_catalog (fun _ => 0) :=
  ⟨Or.inr (Or.inl rfl),
    ((backspace_key (fun _ => []) scenario_catalog (init_state scenario_catalog (fun _ => 0)) 127
      (Or.inr (Or.inl rfl))).2 rfl).1⟩

/-- C10: whatever `highlight` and `offset` were, every AppendChar transition
(a printable character other than 'q' with fewer than 63 characters in the
query), every Backspace transition (a Backspace code with a non-empty query),
and in general every key step that changes the query text, ends with
`highlight = 0` and `offset = 0`. -/
theorem reset_on_edit (stale : Nat → List Nat) (apps : List App) (s : State) (c : Int)
    (h : (isprint c = true ∧ c ≠ 113 ∧ s.search.length < 63)
        ∨ ((c = KEY_BACKSPACE ∨ c = 127 ∨ c = 8) ∧ s.search ≠ [])
        ∨ (handle_key stale apps s c).search ≠ s.search) :
    (handle_key stale apps s c).highlight = 0 ∧ (handle_key stale apps s c).offset = 0 := by
  rcases h with ⟨hp, hq, hlen⟩ | ⟨hc, hne⟩ | hchg
  · have hl : s.search_len < MAX_SEARCH - 1 := by
      simp only [State.search_len, MAX_SEARCH]; omega
    rw [handle_key_printable stale apps s c hp hq hl]
    exact ⟨rfl, rfl⟩
  · have hpos : s.search_len > 0 := by
      simp only [State.search_len]
      exact List.length_pos.mpr hne
    rw [handle_key_backspace stale apps s c hc, if_pos hpos]
    exact ⟨rfl, rfl⟩
  · revert hchg
    unfold handle_key
    split_ifs <;> intro hchg <;> first | exact ⟨rfl, rfl⟩ | exact absurd rfl hchg

/-- C10, witness: the key 'f' (102) pressed with `highlight = 2` and
`offset = 1` on the catalog of scenario 1. -/
theorem reset_on_edit_witness :
    ((isprint 102 = true ∧ (102 : Int) ≠ 113 ∧ ([] : List Nat).length < 63)
      ∨ (((102 : Int) = KEY_BACKSPACE ∨ (102 : Int) = 127 ∨ (102 : Int) = 8)
          ∧ ([] : List Nat) ≠ [])
      ∨ (handle_key (fun _ => []) scenario_catalog
          { highlight := 2, choice := -1, offset := 1, search := [],
            filtered_indices := fun i => i, filtered_count := 3, running := true } 102).search
          ≠ [])
    ∧ ((handle_key (fun _ => []) scenario_catalog
          { highlight := 2, choice := -1, offset := 1, search := [],
            filtered_indices := fun i => i, filtered_count := 3, running := true } 102).highlight
          = 0
      ∧ (handle_key (fun _ => []) scenario_catalog
          { highlight := 2, choice := -1, offset := 1, search := [],
            filtered_indices := fun i => i, filtered_count := 3, running := true } 102).offset
          = 0) :=
  ⟨Or.inl ⟨by decide, by decide, by decide⟩,
    reset_on_edit (fun _ => []) scenario_catalog
      { highlight := 2, choice := -1, offset := 1, search := [],
        filtered_indices := fun i => i, filtered_count := 3, running := true } 102
      (Or.inl ⟨by decide, by decide, by decide⟩)⟩

/-- C11: in every state with `0 ≤ highlight < filtered_count` the Enter key
(code 10) ends the session: the loop is left with `choice = highlight`, no
further input is read, and the code after the loop reads
`filtered_indices[highlight]`, so the entry handed to the launcher is
`apps[filtered_indices[highlight]]`. -/
theorem commit_key (stale : Nat → List Nat) (apps : List App) (s : State)
    (hlo : 0 ≤ s.highlight) (hhi : s.highlight < (s.filtered_count : Int)) :
    (handle_key stale apps s 10).running = false
    ∧ (handle_key stale apps s 10).choice = s.highlight
    ∧ (∀ (max_visible : Int) (rest : List Input),
        main_loop apps max_visible (handle_key stale apps s 10) rest = handle_key stale apps s 10)
    ∧ launch_read (handle_key stale apps s 10) = some s.highlight
    ∧ launched_index (handle_key stale apps s 10)
        = some (s.filtered_indices s.highlight.toNat)
    ∧ launched_app apps (handle_key stale apps s 10)
        = apps[s.filtered_indices s.highlight.toNat]? := by
  have hg : s.highlight ≠ -1 ∧ s.highlight < (s.filtered_count : Int) := ⟨by omega, hhi⟩
  rw [handle_key_enter]
  refine ⟨rfl, rfl, fun mv rest => main_loop_stopped apps mv _ rest rfl, ?_, ?_, ?_⟩
  · simp only [launch_read]
    rw [if_pos hg]
  · simp only [launched_index]
    rw [if_pos hg]
  · simp only [launched_app, launched_index]
    rw [if_pos hg]

/-- C11, witness: Enter in the initial state on the catalog of scenario 1
hands entry 0, "Files", to the launcher. -/
theorem commit_key_witness :
    0 ≤ (init_state scenario_catalog (fun _ => 0)).highlight
    ∧ (init_state scenario_catalog (fun _ => 0)).highlight
        < ((init_state scenario_catalog (fun _ => 0)).filtered_count : Int)
    ∧ launched_index (handle_key (fun _ => []) scenario_catalog
          (init_state scenario_catalog (fun _ => 0)) 10)
        = some ((init_state scenario_catalog (fun _ => 0)).filtered_indices
            (init_state scenario_catalog (fun _ => 0)).highlight.toNat) :=
  ⟨by decide, by decide,
    (commit_key (fun _ => []) scenario_catalog (init_state scenario_catalog (fun _ => 0))
      (by decide) (by decide)).2.2.2.2.1⟩

/-- C12, counterexample: with `filtered_count = 0` and the session running,
Enter leaves the loop: `running` becomes false and `choice` is no longer -1.
The state is the one reached by typing 'z' on the catalog of scenario 1. -/
theorem commit_on_empty_list_quits :
    scenario_no_match.filtered_count = 0
    ∧ (handle_key (fun _ => []) scenario_catalog scenario_no_match 10).running = false
    ∧ (handle_key (fun _ => []) scenario_catalog scenario_no_match 10).choice = 0 := by
  rw [handle_key_enter]
  exact ⟨by decide, rfl, by decide⟩

/-- C12, amended: in every state with `filtered_count = 0` and
`highlight ≥ 0`, Enter ends the session without a launch: the loop is left
with `choice = highlight`, the guard `choice < filtered_count` of the code
after the loop fails, so `filtered_indices` is not read and no entry is handed
to the launcher; query, filtered list, highlight and offset stay as they
were. -/
theorem commit_on_empty_list (stale : Nat → List Nat) (apps : List App) (s : State)
    (hcount : s.filtered_count = 0) (hlo : 0 ≤ s.highlight) :
    (handle_key stale apps s 10).running = false
    ∧ (handle_key stale apps s 10).choice = s.highlight
    ∧ launch_read (handle_key stale apps s 10) = none
    ∧ launched_index (handle_key stale apps s 10) = none
    ∧ launched_app apps (handle_key stale apps s 10) = none
    ∧ (handle_key stale apps s 10).search = s.search
    ∧ (handle_key stale apps s 10).filtered_indices = s.filtered_indices
    ∧ (handle_key stale apps s 10).filtered_count = s.filtered_count
    ∧ (handle_key stale apps s 10).highlight = s.highlight
    ∧ (handle_key stale apps s 10).offset = s.offset := by
  have hg : ¬ (s.highlight ≠ -1 ∧ s.highlight < (s.filtered_count : Int)) := by
    rw [hcount]; intro h; have := h.2; simp at this; omega
  rw [handle_key_enter]
  refine ⟨rfl, rfl, ?_, ?_, ?_, rfl, rfl, rfl, rfl, rfl⟩
  · simp only [launch_read]
    rw [if_neg hg]
  · simp only [launched_index]
    rw [if_neg hg]
  · simp only [launched_app, launched_index]
    rw [if_neg hg]

/-- C12, witness: Enter after the query "z", which no entry matches. -/
theorem commit_on_empty_list_witness :
    scenario_no_match.filtered_count = 0
    ∧ (0 : Int) ≤ scenario_no_match.highlight
    ∧ launched_index (handle_key (fun _ => []) scenario_catalog scenario_no_match 10) = none :=
  ⟨by decide, by decide,
    (commit_on_empty_list (fun _ => []) scenario_catalog scenario_no_match
      (by decide) (by decide)).2.2.2.1⟩

/-- C13: in every state reached from the initial state by any finite sequence
of inputs the stored list `filtered_indices[0..filtered_count)` is the list
that `filter_apps` gives for the catalog and the current query, with the
count it returns: it is the result of the call made at the last change of the
query. When no display name is empty this result of `filter_apps` does not
depend on anything but the catalog and the query. The navigation keys KEY_UP,
KEY_DOWN, KEY_NPAGE and KEY_PPAGE leave the array, the count and the query
untouched. -/
theorem filtered_list_invariant (apps : List App) (max_visible : Int) (mem0 : Nat → Nat)
    (inputs : List Input) :
    (∃ stale,
        (state_after apps max_visible mem0 inputs).filtered
          = entries (filter_apps stale apps
              (state_after apps max_visible mem0 inputs).filtered_indices
              (state_after apps max_visible mem0 inputs).search)
        ∧ (state_after apps max_visible mem0 inputs).filtered_count
          = (filter_apps stale apps
              (state_after apps max_visible mem0 inputs).filtered_indices
              (state_after apps max_visible mem0 inputs).search).2)
    ∧ ((∀ a ∈ apps, a.display_name ≠ []) →
        ∀ (stale : Nat → List Nat) (arr : Nat → Nat),
          (state_after apps max_visible mem0 inputs).filtered
            = entries (filter_apps stale apps arr
                (state_after apps max_visible mem0 inputs).search)
          ∧ (state_after apps max_visible mem0 inputs).filtered_count
            = (filter_apps stale apps arr
                (state_after apps max_visible mem0 inputs).search).2)
    ∧ (∀ (stale : Nat → List Nat) (s : State) (c : Int),
        c = KEY_UP ∨ c = KEY_DOWN ∨ c = KEY_NPAGE ∨ c = KEY_PPAGE →
          (handle_key stale apps s c).filtered_indices = s.filtered_indices
          ∧ (handle_key stale apps s c).filtered_count = s.filtered_count
          ∧ (handle_key stale apps s c).search = s.search) := by
  obtain ⟨st, hst⟩ := filtered_main_loop apps max_visible inputs (init_state apps mem0)
    ⟨fun _ => [], filtered_init apps mem0 _⟩
  have hlen : ∀ s : State, s.filtered.length = s.filtered_count := by
    intro s; simp [State.filtered, entries]
  refine ⟨⟨st, ?_, ?_⟩, ?_, ?_⟩
  · rw [filter_apps_entries]; exact hst
  · rw [filter_apps_count, ← hlen]
    exact congrArg List.length hst
  · intro hne stale arr
    have hfun : matches_at st apps (state_after apps max_visible mem0 inputs).search
        = matches_at stale apps (state_after apps max_visible mem0 inputs).search :=
      funext (matches_at_indep st stale apps _ hne)
    have hst2 : (state_after apps max_visible mem0 inputs).filtered
        = (List.range apps.length).filter
            (matches_at stale apps (state_after apps max_visible mem0 inputs).search) := by
      rw [← hfun]; exact hst
    refine ⟨?_, ?_⟩
    · rw [filter_apps_entries]; exact hst2
    · rw [filter_apps_count, ← hlen]
      exact congrArg List.length hst2
  · intro stale s c hc
    rcases hc with h | h | h | h <;> subst h
    · rw [handle_key_up]; split_ifs <;> exact ⟨rfl, rfl, rfl⟩
    · rw [handle_key_down]; split_ifs <;> exact ⟨rfl, rfl, rfl⟩
    · rw [handle_key_npage]; split_ifs <;> exact ⟨rfl, rfl, rfl⟩
    · rw [handle_key_ppage]; split_ifs <;> exact ⟨rfl, rfl, rfl⟩

/-- C13, witness: the catalog of scenario 1, whose display names are not
empty, after the keys 'f', 'i' and KEY_DOWN. -/
theorem filtered_list_invariant_witness :
    (∀ a ∈ scenario_catalog, a.display_name ≠ [])
    ∧ (state_after scenario_catalog 2 (fun _ => 0)
          [key_input 102, key_input 105, key_input KEY_DOWN]).filtered
        = entries (filter_apps (fun _ => []) scenario_catalog (fun _ => 0)
            (state_after scenario_catalog 2 (fun _ => 0)
              [key_input 102, key_input 105, key_input KEY_DOWN]).search) :=
  ⟨by decide,
    ((filtered_list_invariant scenario_catalog 2 (fun _ => 0)
        [key_input 102, key_input 105, key_input KEY_DOWN]).2.1 (by decide)
      (fun _ => []) (fun _ => 0)).1⟩

/-- C14: for every state and every key code that no transition recognises
(none of KEY_UP, KEY_DOWN, KEY_NPAGE, KEY_PPAGE, not Enter, not ESC or 'q',
none of the Backspace codes, not a printable character) the key step returns
the state as it was: query, filtered list, highlight and offset are unchanged
and a running session keeps running. -/
theorem unrecognised_key (stale : Nat → List Nat) (apps : List App) (s : State) (c : Int)
    (hnav : c ≠ KEY_UP ∧ c ≠ KEY_DOWN ∧ c ≠ KEY_NPAGE ∧ c ≠ KEY_PPAGE)
    (henter : c ≠ 10) (hquit : c ≠ 27 ∧ c ≠ 113)
    (hback : c ≠ KEY_BACKSPACE ∧ c ≠ 127 ∧ c ≠ 8) (hprint : isprint c = false) :
    handle_key stale apps s c = s
    ∧ (handle_key stale apps s c).search = s.search
    ∧ (handle_key stale apps s c).filtered = s.filtered
    ∧ (handle_key stale apps s c).highlight = s.highlight
    ∧ (handle_key stale apps s c).offset = s.offset
    ∧ (handle_key stale apps s c).running = s.running := by
  rw [handle_key_ignored stale apps s c hnav henter hquit hback hprint]
  exact ⟨rfl, rfl, rfl, rfl, rfl, rfl⟩

/-- C14, witness: the code 9 (Tab) in the initial state on the catalog of
scenario 1. -/
theorem unrecognised_key_witness :
    ((9 : Int) ≠ KEY_UP ∧ (9 : Int) ≠ KEY_DOWN ∧ (9 : Int) ≠ KEY_NPAGE ∧ (9 : Int) ≠ KEY_PPAGE)
    ∧ (9 : Int) ≠ 10 ∧ ((9 : Int) ≠ 27 ∧ (9 : Int) ≠ 113)
    ∧ ((9 : Int) ≠ KEY_BACKSPACE ∧ (9 : Int) ≠ 127 ∧ (9 : Int) ≠ 8)
    ∧ isprint 9 = false
    ∧ handle_key (fun _ => []) scenario_catalog (init_state scenario_catalog (fun _ => 0)) 9
        = init_state scenario_catalog (fun _ => 0) :=
  ⟨by decide, by decide, by decide, by decide, by decide,
    (unrecognised_key (fun _ => []) scenario_catalog (init_state scenario_catalog (fun _ => 0)) 9
      (by decide) (by decide) (by decide) (by decide) (by decide)).1⟩

/-- C15: in every state reached from the initial state by any finite sequence
of inputs the query holds at most `MAX_SEARCH - 1 = 63` characters, so with
its terminator it fits the buffer of `MAX_SEARCH = 64` bytes; and a printable
character typed when the query holds 63 characters leaves the query as it
is. -/
theorem query_bounded (apps : List App) (max_visible : Int) (mem0 : Nat → Nat)
    (inputs : List Input) :
    (state_after apps max_visible mem0 inputs).search.length ≤ MAX_SEARCH - 1
    ∧ MAX_SEARCH - 1 = 63
    ∧ (state_after apps max_visible mem0 inputs).search.length + 1 ≤ MAX_SEARCH
    ∧ (∀ (stale : Nat → List Nat) (s : State) (c : Int),
        isprint c = true → s.search.length = 63 → (handle_key stale apps s c).search = s.search) := by
  have h := search_len_main_loop apps max_visible inputs (init_state apps mem0)
    (by simp [init_state])
  refine ⟨h, rfl, ?_, ?_⟩
  · simp only [MAX_SEARCH] at h ⊢
    exact Nat.succ_le_succ h
  · intro stale s c hp hlen
    have hfull : ¬ s.search_len < MAX_SEARCH - 1 := by
      simp only [State.search_len, MAX_SEARCH, hlen]
      decide
    rcases handle_key_full stale apps s c hp hfull with h | h <;> rw [h]

/-- C16: for every list of loaded entries, the catalog that `qsort` with
`compare_apps` leaves holds the same entries in non-decreasing order of the
case-insensitive comparison of `display_name`: for all `i < j`,
`strcasecmp(C[i].display_name, C[j].display_name) ≤ 0`. `compare_apps` is a
comparison function as `qsort` asks for: swapping its arguments negates the
result, and it is transitive. -/
theorem catalog_sorted (loaded : List App) :
    (sorted_catalog loaded).Pairwise
        (fun a b => strcasecmp a.display_name b.display_name ≤ 0)
    ∧ (∀ (i j : Nat) (hi : i < (sorted_catalog loaded).length)
          (hj : j < (sorted_catalog loaded).length), i < j →
        strcasecmp ((sorted_catalog loaded).get ⟨i, hi⟩).display_name
          ((sorted_catalog loaded).get ⟨j, hj⟩).display_name ≤ 0)
    ∧ (sorted_catalog loaded).Perm loaded
    ∧ (∀ a b : App, compare_apps b a = - compare_apps a b)
    ∧ (∀ a b c : App, compare_apps a b ≤ 0 → compare_apps b c ≤ 0 → compare_apps a c ≤ 0) := by
  have h : (sorted_catalog loaded).Pairwise
      (fun a b => strcasecmp a.display_name b.display_name ≤ 0) := qsort_sorted loaded
  refine ⟨h, ?_, List.perm_insertionSort _ loaded,
    fun a b => strcasecmp_swap a.display_name b.display_name, compare_apps_trans⟩
  intro i j hi hj hij
  exact List.pairwise_iff_getElem.mp h i j hi hj hij

/-- C17: for every catalog in non-decreasing order of the case-insensitive
comparison of `display_name` and every query, the display names of the entries
that `filter_apps` lists, read in list order, are again in non-decreasing
order of that comparison. -/
theorem filtered_names_sorted (stale : Nat → List Nat) (apps : List App) (a : Nat → Nat)
    (search : List Nat)
    (hsorted : apps.Pairwise (fun x y => strcasecmp x.display_name y.display_name ≤ 0)) :
    ((entries (filter_apps stale apps a search)).map (display_name_at apps)).Pairwise
      (fun x y => strcasecmp x y ≤ 0) := by
  rw [filter_apps_entries, List.pairwise_map]
  apply List.Pairwise.filter
  refine List.Pairwise.imp_of_mem ?_ (List.pairwise_lt_range apps.length)
  intro i j hi hj hij
  have hi2 : i < apps.length := List.mem_range.mp hi
  have hj2 : j < apps.length := List.mem_range.mp hj
  have h := List.pairwise_iff_getElem.mp hsorted i j hi2 hj2 hij
  simp only [display_name_at, List.getElem?_eq_getElem hi2, List.getElem?_eq_getElem hj2]
  exact h

/-- C17, witness: the catalog of scenario 1 with the query "fi". -/
theorem filtered_names_sorted_witness :
    scenario_catalog.Pairwise (fun x y => strcasecmp x.display_name y.display_name ≤ 0)
    ∧ ((entries (filter_apps (fun _ => []) scenario_catalog (fun _ => 0) scenario_query)).map
        (display_name_at scenario_catalog)).Pairwise (fun x y => strcasecmp x y ≤ 0) :=
  ⟨by decide,
    filtered_names_sorted (fun _ => []) scenario_catalog (fun _ => 0) scenario_query (by decide)⟩

/-- C18: the file name "a.desktop.desktop" ends with the suffix ".desktop",
yet `clean_name` and the Flatpak id are cut at the first ".desktop" in it:
both are "a", not the file name without its trailing ".desktop", which is
"a.desktop". -/
theorem clean_name_cuts_at_first_ext :
    desktop_ext <:+ double_ext_name
    ∧ clean_name double_ext_name = [97]
    ∧ flatpak_app_id [] double_ext_name = [97]
    ∧ double_ext_name ≠ clean_name double_ext_name ++ desktop_ext
    ∧ double_ext_name ≠ flatpak_app_id [] double_ext_name ++ desktop_ext
    ∧ double_ext_name.take (double_ext_name.length - desktop_ext.length)
        = [97, 46, 100, 101, 115, 107, 116, 111, 112]
    ∧ load_entry double_ext_name true
        = some { display_name := [97], file_name := double_ext_name, is_flatpak := true } := by
  decide

/-- C19: on the catalog loaded from a directory that holds the file
".desktop", whose display name is empty, `matches_search` compares the query
with whatever its uninitialised buffer holds. When the buffer holds "" at the
call for the query "a" and "ab" at the call for the query "ab", typing 'a' and
then 'b' takes `filtered_count` from 0 to 1, and index 0 is listed for "ab"
but not for "a". -/
theorem append_char_can_widen :
    load_entry desktop_ext false = some { display_name := [], file_name := desktop_ext,
                                           is_flatpak := false }
    ∧ (handle_key (fun _ => []) hidden_file_catalog
        (init_state hidden_file_catalog (fun _ => 0)) 97).search = [97]
    ∧ (handle_key (fun _ => []) hidden_file_catalog
        (init_state hidden_file_catalog (fun _ => 0)) 97).filtered_count = 0
    ∧ (handle_key (fun _ => [97, 98]) hidden_file_catalog
        (handle_key (fun _ => []) hidden_file_catalog
          (init_state hidden_file_catalog (fun _ => 0)) 97) 98).search = [97, 98]
    ∧ (handle_key (fun _ => [97, 98]) hidden_file_catalog
        (handle_key (fun _ => []) hidden_file_catalog
          (init_state hidden_file_catalog (fun _ => 0)) 97) 98).filtered_count = 1
    ∧ 0 ∈ entries (filter_apps (fun _ => [97, 98]) hidden_file_catalog (fun _ => 0) [97, 98])
    ∧ 0 ∉ entries (filter_apps (fun _ => []) hidden_file_catalog (fun _ => 0) [97]) := by
  decide

/-- C20: in every state reached from the initial state by any finite sequence
of inputs, for any `max_visible` (zero and negative values included), every
position at which the row loop of the render reads `filtered_indices` and the
position at which the code after the loop reads it lie in
`[0, filtered_count)`, and the value read there is an index of the catalog,
below `app_count`; so the entry displayed or launched exists. -/
theorem reads_in_range (apps : List App) (max_visible : Int) (mem0 : Nat → Nat)
    (inputs : List Input) :
    (∀ p ∈ render_reads max_visible (after_adjust apps max_visible mem0 inputs),
        0 ≤ p
        ∧ p < ((after_adjust apps max_visible mem0 inputs).filtered_count : Int)
        ∧ (after_adjust apps max_visible mem0 inputs).filtered_indices p.toNat < apps.length)
    ∧ (∀ p, launch_read (state_after apps max_visible mem0 inputs) = some p →
        0 ≤ p
        ∧ p < ((state_after apps max_visible mem0 inputs).filtered_count : Int)
        ∧ (state_after apps max_visible mem0 inputs).filtered_indices p.toNat < apps.length
        ∧ ∃ app, launched_app apps (state_after apps max_visible mem0 inputs) = some app) := by
  have hs := session_inv_main_loop apps max_visible inputs _ (session_inv_init apps mem0)
  have hr := read_inv_main_loop apps max_visible inputs _ (session_inv_init apps mem0)
    (read_inv_init apps mem0)
  have hsr := session_inv_render max_visible _ hs
  constructor
  · intro p hp
    simp only [render_reads, List.mem_filterMap, List.mem_range] at hp
    obtain ⟨i, _, hi⟩ := hp
    split_ifs at hi with hc
    have hpe : (i : Int) + (after_adjust apps max_visible mem0 inputs).offset = p :=
      Option.some.inj hi
    have hoff : 0 ≤ (after_adjust apps max_visible mem0 inputs).offset := hsr.2.2
    have h0 : 0 ≤ p := by omega
    have hlt : p < ((after_adjust apps max_visible mem0 inputs).filtered_count : Int) := by omega
    exact ⟨h0, hlt, hr.2 p.toNat (by
      have : (after_adjust apps max_visible mem0 inputs).filtered_count
          = (main_loop apps max_visible (init_state apps mem0) inputs).filtered_count := rfl
      omega)⟩
  · intro p hp
    simp only [launch_read] at hp
    split_ifs at hp with hc
    have hpe : (state_after apps max_visible mem0 inputs).choice = p := Option.some.inj hp
    have hch : (state_after apps max_visible mem0 inputs).choice = -1
        ∨ 0 ≤ (state_after apps max_visible mem0 inputs).choice := hr.1
    have h0 : 0 ≤ p := by omega
    have hlt : p < ((state_after apps max_visible mem0 inputs).filtered_count : Int) := by omega
    have hidx : (state_after apps max_visible mem0 inputs).filtered_indices p.toNat
        < apps.length := hr.2 p.toNat (by
      have : (state_after apps max_visible mem0 inputs).filtered_count
          = (main_loop apps max_visible (init_state apps mem0) inputs).filtered_count := rfl
      omega)
    refine ⟨h0, hlt, hidx, ⟨apps[(state_after apps max_visible mem0 inputs).filtered_indices p.toNat], ?_⟩⟩
    simp only [launched_app, launched_index]
    rw [if_pos hc, hpe]
    exact List.getElem?_eq_getElem hidx

end M
